import Mathlib

/-!
Verification of the local-first synchronization core of the interectnote
infinite-canvas note app.

The development shallowly embeds the relevant TypeScript source:
* the entity model (`src/types`),
* the notes delta reconciler (`src/store/types/store.types.ts`:
  `applyNotesEvent`, `applyBufferedNotesEventsToMap`,
  `flushBufferedNotesEvents`, `flushNotesToState`, `refreshNotesOnce`,
  the `subscribeToNotesDelta` callback),
* the debounced cache writer (`scheduleCacheWrite`),
* the store factory actions (`createCanvasStoreCore`: `addNote`,
  `selectNote`, `selectImage`, `selectFile`, delete/add actions),
* the storage adapters (`FirebaseStorageAdapter`, `LocalStorageAdapter`).

JavaScript numbers appearing here are integers or compared only for
equality, so they are embedded as `Int`; `Date` values are embedded as
their epoch-millisecond value.  JS `Map` objects (and plain objects used
as records) are embedded as association lists with JS `Map` semantics:
`set` replaces in place, `delete` filters, iteration follows insertion
order.  Asynchronous effects (remote fetches, save acknowledgements,
timers, idle callbacks) are made explicit as parameters or as events of a
small-step machine.
-/

namespace Interectnote

/-! ## Association-list maps with JS `Map` semantics

JS `Map` objects (and plain objects used as records) never hold two
entries with the same key, `set` updates an existing entry in place,
`delete` removes it, and iteration follows insertion order; the
recursive operations below implement exactly that. -/

/-- Lookup, as JS `Map.get` / property access on a record object. -/
def aget {α : Type} : List (String × α) → String → Option α
  | [], _ => none
  | (a, b) :: t, k => if a = k then some b else aget t k

/-- Membership, as JS `Map.has` / `id in obj`. -/
def ahas {α : Type} (m : List (String × α)) (k : String) : Bool :=
  (aget m k).isSome

/-- Insertion, as JS `Map.set` / property assignment: an existing key is
updated in place (keeping its position in iteration order), a new key is
appended. -/
def aset {α : Type} : List (String × α) → String → α → List (String × α)
  | [], k, v => [(k, v)]
  | (a, b) :: t, k, v => if a = k then (k, v) :: t else (a, b) :: aset t k v

/-- Deletion, as JS `Map.delete` / `delete obj[k]` (dropping the
returned boolean). -/
def adel {α : Type} : List (String × α) → String → List (String × α)
  | [], _ => []
  | (a, b) :: t, k => if a = k then adel t k else (a, b) :: adel t k

/-! ### Basic lemmas about the map operations -/

theorem aget_aset_self {α : Type} (m : List (String × α)) (k : String)
    (v : α) : aget (aset m k v) k = some v := by
  induction m with
  | nil => simp [aset, aget]
  | cons p t ih =>
    obtain ⟨a, b⟩ := p
    by_cases h : a = k <;> simp [aset, aget, h, ih]

theorem aget_aset_ne {α : Type} (m : List (String × α)) (k k' : String)
    (v : α) (h : k ≠ k') : aget (aset m k v) k' = aget m k' := by
  induction m with
  | nil => simp [aset, aget, h]
  | cons p t ih =>
    obtain ⟨a, b⟩ := p
    by_cases ha : a = k
    · subst ha
      simp [aset, aget, h]
    · have hk : ¬ (k' = k) := fun hc => h hc.symm
      by_cases ha' : a = k' <;> simp [aset, aget, ha, ha', hk, ih]

theorem aget_adel_self {α : Type} (m : List (String × α)) (k : String) :
    aget (adel m k) k = none := by
  induction m with
  | nil => simp [adel, aget]
  | cons p t ih =>
    obtain ⟨a, b⟩ := p
    by_cases h : a = k <;> simp [adel, aget, h, ih]

theorem aget_adel_ne {α : Type} (m : List (String × α)) (k k' : String)
    (h : k ≠ k') : aget (adel m k) k' = aget m k' := by
  induction m with
  | nil => simp [adel]
  | cons p t ih =>
    obtain ⟨a, b⟩ := p
    by_cases ha : a = k
    · subst ha
      simp [adel, aget, h, ih]
    · have hk : ¬ (k' = k) := fun hc => h hc.symm
      by_cases ha' : a = k' <;> simp [adel, aget, ha, ha', hk, ih]

theorem adel_of_ahas_false {α : Type} (m : List (String × α)) (k : String)
    (h : ahas m k = false) : adel m k = m := by
  induction m with
  | nil => rfl
  | cons p t ih =>
    obtain ⟨a, b⟩ := p
    by_cases ha : a = k
    · subst ha
      simp [ahas, aget] at h
    · have ht : ahas t k = false := by
        simpa [ahas, aget, ha] using h

      simp [adel, ha, ih ht]

theorem ahas_eq_true_iff {α : Type} (m : List (String × α)) (k : String) :
    ahas m k = true ↔ ∃ v, aget m k = some v := by
  unfold ahas
  cases h : aget m k <;> simp [h]

/-! ## Entity model (`src/types/index.ts`) -/

/-- A sticky note (`interface Note`); `Date` fields are epoch millis. -/
structure Note where
  id : String
  x : Int
  y : Int
  width : Int
  height : Int
  content : String
  color : String
  zIndex : Option Int
  isImportant : Option Bool
  createdAt : Int
  updatedAt : Int
deriving Repr, DecidableEq

/-- A canvas image (`interface CanvasImage`). -/
structure CanvasImage where
  id : String
  x : Int
  y : Int
  width : Int
  height : Int
  url : String
  originalWidth : Int
  originalHeight : Int
  fileName : String
  fileSize : Int
  createdAt : Int
deriving Repr, DecidableEq

/-- A canvas file (`interface CanvasFile`); the PDF payload is not needed
by any claim and is kept as an opaque optional annotation list length
would misrepresent the source, so the full record fields are carried
except `pdfData`/`editMode`/`isDrawingMode`, which no studied code path
reads or writes. -/
structure CanvasFile where
  id : String
  x : Int
  y : Int
  width : Int
  height : Int
  fileName : String
  fileType : String
  fileSize : Int
  url : String
  thumbnailUrl : Option String
  createdAt : Int
deriving Repr, DecidableEq

/-- Wire representation of a note (`interface FirebaseNote`): numeric
epoch timestamps, `zIndex` possibly absent (the readers apply `|| 0`). -/
structure FirebaseNote where
  id : String
  content : String
  x : Int
  y : Int
  width : Int
  height : Int
  color : String
  zIndex : Option Int
  createdAt : Int
  updatedAt : Int
deriving Repr, DecidableEq

/-- JS `v || 0` on a possibly-absent number. -/
def orZero (o : Option Int) : Int := o.getD 0

/-! ## Notes delta reconciler (`src/store/types/store.types.ts`) -/

/-- `firebaseNoteToLocal` (store.types.ts): convert the wire form to the
local entity; `zIndex: firebaseNote.zIndex || 0`, `new Date(epoch)`. -/
def firebaseNoteToLocal (fb : FirebaseNote) : Note :=
  { id := fb.id
    content := fb.content
    x := fb.x
    y := fb.y
    width := fb.width
    height := fb.height
    color := fb.color
    zIndex := some (orZero fb.zIndex)
    isImportant := none
    createdAt := fb.createdAt
    updatedAt := fb.updatedAt }

/-- `isSameNote` (store.types.ts): field-for-field comparison of a cached
note against an incoming wire note, with `zIndex || 0` defaulting on both
sides and `Date.getTime()` comparison on timestamps. -/
def isSameNote (existing : Note) (fb : FirebaseNote) : Bool :=
  existing.content = fb.content &&
  existing.x = fb.x &&
  existing.y = fb.y &&
  existing.width = fb.width &&
  existing.height = fb.height &&
  existing.color = fb.color &&
  orZero existing.zIndex = orZero fb.zIndex &&
  existing.createdAt = fb.createdAt &&
  existing.updatedAt = fb.updatedAt

/-- A delta event from `subscribeToNotesDelta` (`NotesDeltaEvent`):
`{ type: 'added' | 'removed', id, note }`.  `changed` events are folded
into `added` by the feed, as the reconciler's comments state. -/
inductive NotesDeltaEvent where
  | added (id : String) (note : FirebaseNote)
  | removed (id : String)
deriving Repr, DecidableEq

def NotesDeltaEvent.eventId : NotesDeltaEvent → String
  | .added id _ => id
  | .removed id => id

def NotesDeltaEvent.isAdded : NotesDeltaEvent → Bool
  | .added _ _ => true
  | .removed _ => false

/-- The in-memory `id -> Note` map (`notesById : Map<string, Note>`). -/
abbrev NotesMap := List (String × Note)

/-- The slice of the zustand state store that the notes reconciler
reads or writes (`set((state) => ...)` calls in the notes sync code). -/
structure NotesStoreState where
  notes : List Note
  selectedNoteId : Option String
  notesReady : Bool
deriving Repr, DecidableEq

/-- Reconciler-instance state: the closure variables of the notes sync
block in `createUnifiedStore`, plus observation counters for effects the
claims talk about (`console.warn` calls and `scheduleCacheWrite`
invocations issued by this code path). -/
structure NotesSyncState where
  notesById : NotesMap
  notesSyncActive : Bool
  isBufferingNotes : Bool
  isRefreshingNotes : Bool
  bufferedNotesEvents : List (String × NotesDeltaEvent)
  store : NotesStoreState
  cacheWrites : Nat
  warnings : Nat
deriving Repr, DecidableEq

/-- `applyNotesEvent` (store.types.ts, lines 1103–1116) acting on the
map; returns the updated map and the boolean the source returns.
`removed` deletes (returning whether the id was present); `added`
compares with `isSameNote` when the id is resident and otherwise stores
`firebaseNoteToLocal({ ...event.note, id: event.id })`. -/
def applyNotesEvent (m : NotesMap) (e : NotesDeltaEvent) : NotesMap × Bool :=
  match e with
  | .removed id => (adel m id, ahas m id)
  | .added id note =>
    match aget m id with
    | some existing =>
      if isSameNote existing note then (m, false)
      else (aset m id (firebaseNoteToLocal { note with id := id }), true)
    | none => (aset m id (firebaseNoteToLocal { note with id := id }), true)

/-- One iteration of the loop in `applyBufferedNotesEventsToMap`:
`added` events whose id is already in the map are skipped outright
("Ignore initial child_added flood for already-loaded notes"). -/
def applyBufferedStep (acc : NotesMap × Bool) (e : NotesDeltaEvent) :
    NotesMap × Bool :=
  if e.isAdded && ahas acc.1 e.eventId then acc
  else
    let r := applyNotesEvent acc.1 e
    (r.1, r.2 || acc.2)

/-- `applyBufferedNotesEventsToMap` (store.types.ts, lines 1118–1127):
fold the buffered events (in buffer-map iteration order) over the map;
the caller clears the buffer.  Returns the map and the `changed` flag. -/
def applyBufferedNotesEventsToMap (m : NotesMap)
    (buffered : List (String × NotesDeltaEvent)) : NotesMap × Bool :=
  (buffered.map Prod.snd).foldl applyBufferedStep (m, false)

/-- The body of the `requestAnimationFrame` callback scheduled by
`flushNotesToState`: publish `Array.from(notesById.values())` to the
state store, set `notesReady`, clear a selection that points at a
deleted note in the same update, and call `scheduleCacheWrite`.
The rAF coalescing itself is a timing detail; each modelled flush is the
single state update the callback performs. -/
def flushNotesToState (s : NotesSyncState) : NotesSyncState :=
  let notes := s.notesById.map Prod.snd
  { s with
    store :=
      { notes := notes
        notesReady := true
        selectedNoteId :=
          match s.store.selectedNoteId with
          | some sel => if ahas s.notesById sel then some sel else none
          | none => none }
    cacheWrites := s.cacheWrites + 1 }

/-- `flushBufferedNotesEvents` (store.types.ts, lines 1129–1133):
apply the buffered events to the map (clearing the buffer) and flush to
the state store only when something changed. -/
def flushBufferedNotesEvents (s : NotesSyncState) : NotesSyncState :=
  let r := applyBufferedNotesEventsToMap s.notesById s.bufferedNotesEvents
  let s' := { s with notesById := r.1, bufferedNotesEvents := [] }
  if r.2 then flushNotesToState s' else s'

/-- The `subscribeToNotesDelta` callback (store.types.ts, lines
1179–1191): buffer while a refresh is in flight; otherwise drop `added`
events for resident ids, apply the event and flush when it changed the
map. -/
def handleNotesDelta (s : NotesSyncState) (e : NotesDeltaEvent) :
    NotesSyncState :=
  if !s.notesSyncActive then s
  else if s.isBufferingNotes then
    { s with bufferedNotesEvents := aset s.bufferedNotesEvents e.eventId e }
  else if e.isAdded && ahas s.notesById e.eventId then s
  else
    let r := applyNotesEvent s.notesById e
    let s' := { s with notesById := r.1 }
    if r.2 then flushNotesToState s' else s'

/-- Result of the `fetchNotesOnce` remote read: a record of wire notes
keyed by id on success, or a rejection. -/
inductive FetchNotesResult where
  | ok (snapshot : List (String × FirebaseNote))
  | err
deriving Repr, DecidableEq

/-- Load a fetched snapshot into a fresh map, as the success branch of
`refreshNotesOnce` does after `notesById.clear()`:
`for (const [id, note] of Object.entries(firebaseNotes))
   notesById.set(id, firebaseNoteToLocal({ ...note, id }))`. -/
def loadSnapshot (snapshot : List (String × FirebaseNote)) : NotesMap :=
  snapshot.foldl
    (fun m p => aset m p.1 (firebaseNoteToLocal { p.2 with id := p.1 })) []

/-- `refreshNotesOnce` (store.types.ts, lines 1135–1177).  The remote
fetch is in flight between setting `isBufferingNotes` and the
continuation; `eventsDuring` are the delta events the subscription
delivers strictly during that window (they pass through the callback,
which buffers them).  `result` is the settlement of the fetch.  The
success branch replaces the map wholesale, re-applies buffered events,
publishes to the store and schedules a cache write; the failure branch
warns and sets `notesReady`; the `finally` block leaves buffering and
flushes any remaining buffered events. -/
def refreshNotesOnce (s : NotesSyncState)
    (eventsDuring : List NotesDeltaEvent) (result : FetchNotesResult) :
    NotesSyncState :=
  if !s.notesSyncActive || s.isRefreshingNotes then s
  else
    let s1 := { s with isRefreshingNotes := true, isBufferingNotes := true }
    let s2 := eventsDuring.foldl handleNotesDelta s1
    let s3 :=
      match result with
      | .ok snapshot =>
        let m0 := loadSnapshot snapshot
        let r := applyBufferedNotesEventsToMap m0 s2.bufferedNotesEvents
        let notes := r.1.map Prod.snd
        { s2 with
          notesById := r.1
          bufferedNotesEvents := []
          store :=
            { notes := notes
              notesReady := true
              selectedNoteId :=
                match s2.store.selectedNoteId with
                | some sel => if ahas r.1 sel then some sel else none
                | none => none }
          cacheWrites := s2.cacheWrites + 1 }
      | .err =>
        { s2 with
          warnings := s2.warnings + 1
          store := { s2.store with notesReady := true } }
    let s4 := { s3 with isBufferingNotes := false, isRefreshingNotes := false }
    if s4.bufferedNotesEvents.isEmpty then s4 else flushBufferedNotesEvents s4

/-! ### Derived notions used to state the buffering claims -/

/-- The contents of the buffer map after a sequence of events has been
delivered while buffering (each `bufferedNotesEvents.set(event.id, event)`,
last write wins per id). -/
def bufferOf (evs : List NotesDeltaEvent) : List (String × NotesDeltaEvent) :=
  evs.foldl (fun b e => aset b e.eventId e) []

/-- The last event of a sequence that targets a given id. -/
def lastEventFor (evs : List NotesDeltaEvent) (id : String) :
    Option NotesDeltaEvent :=
  (evs.filter (fun e => e.eventId = id)).getLast?

/-- Pointwise effect on one id of re-applying a single buffered event over
a map whose entry for that id is `cur`: `added` events are discarded when
the id is already present and otherwise install the converted note;
`removed` events delete. -/
def bufferedEffect (cur : Option Note) : NotesDeltaEvent → Option Note
  | .added i n => if cur.isSome then cur else
      some (firebaseNoteToLocal { n with id := i })
  | .removed _ => none

/-- Well-formedness of a buffer map: every entry is keyed by its event's
id and keys are distinct (which `Map.set` keyed by `event.id`
maintains). -/
def BufferWF (b : List (String × NotesDeltaEvent)) : Prop :=
  (∀ p ∈ b, (p.2).eventId = p.1) ∧ (b.map Prod.fst).Nodup

/-! ### Concrete inputs used to witness the reconciler claims -/

/-- A stale wire note, superseded during buffering by `c1Note2`. -/
def c1Note1 : FirebaseNote :=
  { id := "", content := "first", x := 0, y := 0, width := 260,
    height := 180, color := "yellow", zIndex := some 1, createdAt := 10,
    updatedAt := 20 }

/-- The fresher wire note for the same id as `c1Note1`. -/
def c1Note2 : FirebaseNote :=
  { id := "", content := "second", x := 5, y := 5, width := 260,
    height := 180, color := "pink", zIndex := some 2, createdAt := 10,
    updatedAt := 30 }

/-- An idle reconciler with an empty map. -/
def c1State : NotesSyncState :=
  { notesById := []
    notesSyncActive := true
    isBufferingNotes := false
    isRefreshingNotes := false
    bufferedNotesEvents := []
    store := { notes := [], selectedNoteId := none, notesReady := false }
    cacheWrites := 0
    warnings := 0 }

/-- A wire note already resident (in converted form) in `c2State`. -/
def c2Note : FirebaseNote :=
  { id := "", content := "hello", x := 1, y := 2, width := 260,
    height := 180, color := "blue", zIndex := some 3, createdAt := 100,
    updatedAt := 200 }

/-- An idle reconciler caching exactly the note carried by `c2Note`. -/
def c2State : NotesSyncState :=
  { notesById := [("n1", firebaseNoteToLocal { c2Note with id := "n1" })]
    notesSyncActive := true
    isBufferingNotes := false
    isRefreshingNotes := false
    bufferedNotesEvents := []
    store :=
      { notes := [firebaseNoteToLocal { c2Note with id := "n1" }]
        selectedNoteId := none
        notesReady := true }
    cacheWrites := 0
    warnings := 0 }

/-! ### Lemmas about buffering -/

theorem ahas_false_iff_not_mem_keys {α : Type} (m : List (String × α))
    (k : String) : ahas m k = false ↔ k ∉ m.map Prod.fst := by
  induction m with
  | nil => simp [ahas, aget]
  | cons p t ih =>
    obtain ⟨a, b⟩ := p
    by_cases h : a = k
    · subst h
      simp [ahas, aget]
    · have hne : ¬ (k = a) := fun hc => h hc.symm
      simpa [ahas, aget, h, hne] using ih

theorem keys_aset {α : Type} (m : List (String × α)) (k : String) (v : α) :
    (aset m k v).map Prod.fst =
      if ahas m k then m.map Prod.fst else m.map Prod.fst ++ [k] := by
  induction m with
  | nil => simp [aset, ahas, aget]
  | cons p t ih =>
    obtain ⟨a, b⟩ := p
    by_cases h : a = k
    · subst h
      simp [aset, ahas, aget]
    · simp only [aset, h, if_false, List.map_cons, ih, ahas, aget]
      split <;> simp

theorem bufferWF_aset (b : List (String × NotesDeltaEvent))
    (e : NotesDeltaEvent) (hwf : BufferWF b) :
    BufferWF (aset b e.eventId e) := by
  obtain ⟨hkv, hnd⟩ := hwf
  constructor
  · intro p hp
    induction b with
    | nil =>
      simp [aset] at hp
      simp [hp]
    | cons q t ih =>
      obtain ⟨a, v⟩ := q
      by_cases h : a = e.eventId
      · subst h
        simp [aset] at hp
        rcases hp with hp | hp
        · simp [hp]
        · exact hkv p (by simp [hp])
      · simp [aset, h] at hp
        rcases hp with hp | hp
        · exact hkv p (by simp [hp])
        · exact ih (fun q hq => hkv q (by simp [hq])) (by
            simpa using hnd.of_cons) hp
  · rw [keys_aset]
    by_cases h : ahas b e.eventId
    · simpa [h] using hnd
    · have : e.eventId ∉ b.map Prod.fst :=
        (ahas_false_iff_not_mem_keys b e.eventId).mp (by
          cases hb : ahas b e.eventId
          · rfl
          · exact absurd hb h)
      simp only [h, if_false]
      refine List.Nodup.append hnd (List.nodup_singleton _) ?_
      intro a ha hb
      rw [List.mem_singleton] at hb
      subst hb
      exact this ha

theorem bufferWF_bufferFold (b : List (String × NotesDeltaEvent))
    (evs : List NotesDeltaEvent) (hwf : BufferWF b) :
    BufferWF (evs.foldl (fun b e => aset b e.eventId e) b) := by
  induction evs generalizing b with
  | nil => exact hwf
  | cons e t ih => exact ih _ (bufferWF_aset b e hwf)

theorem bufferWF_bufferOf (evs : List NotesDeltaEvent) :
    BufferWF (bufferOf evs) :=
  bufferWF_bufferFold [] evs ⟨by simp, by simp⟩

theorem getLast?_cons_or {α : Type} (a : α) (l : List α) :
    (a :: l).getLast? = l.getLast?.or (some a) := by
  induction l generalizing a with
  | nil => rfl
  | cons b t ih =>
    rw [List.getLast?_cons_cons, ih b]
    cases h : t.getLast? <;> simp

theorem aget_bufferFold (evs : List NotesDeltaEvent)
    (b : List (String × NotesDeltaEvent)) (id : String) :
    aget (evs.foldl (fun b e => aset b e.eventId e) b) id =
      (lastEventFor evs id).or (aget b id) := by
  induction evs generalizing b with
  | nil => simp [lastEventFor]
  | cons e t ih =>
    by_cases h : e.eventId = id
    · have h1 :
        lastEventFor (e :: t) id = (lastEventFor t id).or (some e) := by
        simp [lastEventFor, h, List.filter, getLast?_cons_or]
      rw [List.foldl_cons, ih, h1, h, aget_aset_self]
      cases hl : lastEventFor t id <;> simp
    · have h1 : lastEventFor (e :: t) id = lastEventFor t id := by
        simp [lastEventFor, List.filter, h]
      rw [List.foldl_cons, ih, h1, aget_aset_ne _ _ _ _ h]

theorem aget_bufferOf (evs : List NotesDeltaEvent) (id : String) :
    aget (bufferOf evs) id = lastEventFor evs id := by
  rw [bufferOf, aget_bufferFold]
  cases hl : lastEventFor evs id <;> simp [aget]

/-- A buffered-application step leaves ids other than the event's own
untouched. -/
theorem aget_applyBufferedStep_ne (acc : NotesMap × Bool)
    (e : NotesDeltaEvent) (id : String) (h : e.eventId ≠ id) :
    aget (applyBufferedStep acc e).1 id = aget acc.1 id := by
  obtain ⟨m, c⟩ := acc
  cases e with
  | removed i =>
    simp only [NotesDeltaEvent.eventId] at h
    simp [applyBufferedStep, NotesDeltaEvent.isAdded, applyNotesEvent,
      aget_adel_ne _ _ _ h]
  | added i n =>
    simp only [NotesDeltaEvent.eventId] at h
    by_cases hm : ahas m i
    · simp [applyBufferedStep, NotesDeltaEvent.isAdded,
        NotesDeltaEvent.eventId, hm]
    · have hget : aget m i = none := by
        cases hg : aget m i
        · rfl
        · exact absurd (by simp [ahas, hg]) hm
      simp [applyBufferedStep, NotesDeltaEvent.isAdded,
        NotesDeltaEvent.eventId, hm, applyNotesEvent, hget,
        aget_aset_ne _ _ _ _ h]

/-- A buffered-application step acts on its own id exactly as
`bufferedEffect` describes. -/
theorem aget_applyBufferedStep_self (acc : NotesMap × Bool)
    (e : NotesDeltaEvent) :
    aget (applyBufferedStep acc e).1 e.eventId =
      bufferedEffect (aget acc.1 e.eventId) e := by
  obtain ⟨m, c⟩ := acc
  cases e with
  | removed i =>
    simp [applyBufferedStep, NotesDeltaEvent.isAdded, applyNotesEvent,
      NotesDeltaEvent.eventId, bufferedEffect, aget_adel_self]
  | added i n =>
    by_cases hm : ahas m i
    · obtain ⟨v, hv⟩ := (ahas_eq_true_iff m i).mp hm
      simp [applyBufferedStep, NotesDeltaEvent.isAdded,
        NotesDeltaEvent.eventId, hm, bufferedEffect, hv]
    · have hget : aget m i = none := by
        cases hg : aget m i
        · rfl
        · exact absurd (by simp [ahas, hg]) hm
      simp [applyBufferedStep, NotesDeltaEvent.isAdded,
        NotesDeltaEvent.eventId, hm, applyNotesEvent, hget,
        bufferedEffect, aget_aset_self]

theorem aget_fold_preserve (t : List (String × NotesDeltaEvent))
    (acc : NotesMap × Bool) (id : String)
    (hkeys : ∀ p ∈ t, p.1 ≠ id)
    (hkv : ∀ p ∈ t, (p.2).eventId = p.1) :
    aget ((t.map Prod.snd).foldl applyBufferedStep acc).1 id =
      aget acc.1 id := by
  induction t generalizing acc with
  | nil => rfl
  | cons p t ih =>
    have hp : (p.2).eventId ≠ id := by
      rw [hkv p (by simp)]
      exact hkeys p (by simp)
    rw [List.map_cons, List.foldl_cons,
      ih _ (fun q hq => hkeys q (by simp [hq]))
        (fun q hq => hkv q (by simp [hq])),
      aget_applyBufferedStep_ne _ _ _ hp]

/-- Pointwise characterization of `applyBufferedNotesEventsToMap`: the
re-application of a well-formed buffer affects each id according to the
buffer's (unique) entry for that id, independently of all other ids. -/
theorem aget_applyBuffered_pointwise (b : List (String × NotesDeltaEvent))
    (m : NotesMap) (c : Bool) (id : String) (hwf : BufferWF b) :
    aget ((b.map Prod.snd).foldl applyBufferedStep (m, c)).1 id =
      match aget b id with
      | some e => bufferedEffect (aget m id) e
      | none => aget m id := by
  induction b generalizing m c with
  | nil => simp [aget]
  | cons p t ih =>
    obtain ⟨hkv, hnd⟩ := hwf
    obtain ⟨k, e⟩ := p
    have hke : e.eventId = k := hkv (k, e) (by simp)
    by_cases h : k = id
    · subst h
      have hkeys : ∀ q ∈ t, q.1 ≠ k := by
        intro q hq hc
        have : q.1 ∈ t.map Prod.fst := List.mem_map_of_mem _ hq
        rw [hc] at this
        exact (List.nodup_cons.mp (by simpa using hnd)).1 this
      rw [List.map_cons, List.foldl_cons,
        aget_fold_preserve t _ k hkeys
          (fun q hq => hkv q (by simp [hq]))]
      have := aget_applyBufferedStep_self (m, c) e
      rw [hke] at this
      rw [this]
      simp [aget]
    · have hne : ¬ (k = id) := h
      rw [List.map_cons, List.foldl_cons]
      have hstep : aget (applyBufferedStep (m, c) e).1 id = aget m id := by
        apply aget_applyBufferedStep_ne
        rw [hke]
        exact h
      have ihr := ih (applyBufferedStep (m, c) e).1
        (applyBufferedStep (m, c) e).2
        ⟨fun q hq => hkv q (by simp [hq]), by simpa using hnd.of_cons⟩
      rw [show ((applyBufferedStep (m, c) e).1,
            (applyBufferedStep (m, c) e).2) = applyBufferedStep (m, c) e
          from rfl] at ihr
      rw [ihr, hstep]
      simp [aget, hne]

/-- Delivering events through the subscription callback while a refresh
is buffering only accumulates them into the buffer map. -/
theorem handle_buffering_fold (s : NotesSyncState)
    (evs : List NotesDeltaEvent) (hactive : s.notesSyncActive = true)
    (hbuf : s.isBufferingNotes = true) :
    evs.foldl handleNotesDelta s =
      { s with
        bufferedNotesEvents :=
          evs.foldl (fun b e => aset b e.eventId e)
            s.bufferedNotesEvents } := by
  induction evs generalizing s with
  | nil => rfl
  | cons e t ih =>
    rw [List.foldl_cons, List.foldl_cons]
    have h1 : handleNotesDelta s e =
        { s with
          bufferedNotesEvents := aset s.bufferedNotesEvents e.eventId e } := by
      simp [handleNotesDelta, hactive, hbuf]
    rw [h1, ih _ (by simpa using hactive) (by simpa using hbuf)]

theorem bufferOf_def (evs : List NotesDeltaEvent) :
    bufferOf evs = evs.foldl (fun b e => aset b e.eventId e) [] := rfl

/-- A successful `refreshNotesOnce`, started from an idle reconciler with
an empty buffer, with `eventsDuring` delivered while the fetch was in
flight: closed form of the final state. -/
theorem refreshNotesOnce_ok_eq (s : NotesSyncState)
    (evs : List NotesDeltaEvent) (snap : List (String × FirebaseNote))
    (hactive : s.notesSyncActive = true)
    (hrefr : s.isRefreshingNotes = false)
    (hbuf : s.bufferedNotesEvents = []) :
    refreshNotesOnce s evs (.ok snap) =
      { s with
        notesById :=
          (applyBufferedNotesEventsToMap (loadSnapshot snap)
            (bufferOf evs)).1
        isBufferingNotes := false
        isRefreshingNotes := false
        bufferedNotesEvents := []
        store :=
          { notes :=
              (applyBufferedNotesEventsToMap (loadSnapshot snap)
                (bufferOf evs)).1.map Prod.snd
            notesReady := true
            selectedNoteId :=
              match s.store.selectedNoteId with
              | some sel =>
                if ahas (applyBufferedNotesEventsToMap (loadSnapshot snap)
                    (bufferOf evs)).1 sel then some sel else none
              | none => none }
        cacheWrites := s.cacheWrites + 1 } := by
  unfold refreshNotesOnce
  have hg : (!s.notesSyncActive || s.isRefreshingNotes) = false := by
    rw [hactive, hrefr]
    rfl
  rw [hg]
  simp only [Bool.false_eq_true, if_false]
  rw [handle_buffering_fold
      { s with isRefreshingNotes := true, isBufferingNotes := true }
      evs hactive rfl,
    hbuf, ← bufferOf_def]
  rfl

/-- `flushBufferedNotesEvents` on an empty buffer does nothing. -/
theorem flushBufferedNotesEvents_empty (s : NotesSyncState)
    (h : s.bufferedNotesEvents = []) : flushBufferedNotesEvents s = s := by
  obtain ⟨m, a, b, r, buf, st, cw, w⟩ := s
  simp only at h
  subst h
  rfl

/-- A failed `refreshNotesOnce`, started from an idle reconciler with an
empty buffer: warn, mark ready, drop out of buffering and re-apply
whatever was buffered (the `finally` block). -/
theorem refreshNotesOnce_err_eq (s : NotesSyncState)
    (evs : List NotesDeltaEvent)
    (hactive : s.notesSyncActive = true)
    (hrefr : s.isRefreshingNotes = false)
    (hbuf : s.bufferedNotesEvents = []) :
    refreshNotesOnce s evs .err =
      flushBufferedNotesEvents
        { s with
          isBufferingNotes := false
          isRefreshingNotes := false
          bufferedNotesEvents := bufferOf evs
          store := { s.store with notesReady := true }
          warnings := s.warnings + 1 } := by
  unfold refreshNotesOnce
  have hg : (!s.notesSyncActive || s.isRefreshingNotes) = false := by
    rw [hactive, hrefr]
    rfl
  rw [hg]
  simp only [Bool.false_eq_true, if_false]
  rw [handle_buffering_fold
      { s with isRefreshingNotes := true, isBufferingNotes := true }
      evs hactive rfl,
    hbuf, ← bufferOf_def]
  cases hb : bufferOf evs with
  | nil =>
    rw [flushBufferedNotesEvents_empty _ (by simp [hb])]
    simp [hb]
  | cons p t =>
    simp [hb]

/-- C1: events delivered strictly while a notes snapshot refresh is in
flight are buffered in a secondary map keyed by entity id (last write
wins per id); after the refresh succeeds the in-memory map is replaced
wholesale from the fetched snapshot and every buffered event is
re-applied exactly once over it — `added` events whose id is already
present in the fresh map are discarded, buffered `removed` events delete
the entry — so for each id, the post-refresh entry is determined by the
last buffered event for that id (in particular, of two buffered events
for the same id only the later one is visible); the buffer ends empty. -/
theorem refresh_success_applies_buffered_once (s : NotesSyncState)
    (evs : List NotesDeltaEvent) (snap : List (String × FirebaseNote))
    (hactive : s.notesSyncActive = true)
    (hrefr : s.isRefreshingNotes = false)
    (hbuf : s.bufferedNotesEvents = []) :
    (refreshNotesOnce s evs (.ok snap)).bufferedNotesEvents = [] ∧
    (refreshNotesOnce s evs (.ok snap)).isBufferingNotes = false ∧
    ∀ id, aget (refreshNotesOnce s evs (.ok snap)).notesById id =
      match lastEventFor evs id with
      | some e => bufferedEffect (aget (loadSnapshot snap) id) e
      | none => aget (loadSnapshot snap) id := by
  rw [refreshNotesOnce_ok_eq s evs snap hactive hrefr hbuf]
  refine ⟨rfl, rfl, fun id => ?_⟩
  show aget (applyBufferedNotesEventsToMap (loadSnapshot snap)
      (bufferOf evs)).1 id = _
  rw [applyBufferedNotesEventsToMap,
    aget_applyBuffered_pointwise _ _ _ _ (bufferWF_bufferOf evs),
    aget_bufferOf]

/-- Concrete instance of C1: two events buffered for the same id during
the refresh; after the refresh only the later event's fields are
visible. -/
theorem refresh_success_applies_buffered_once_witness :
    (refreshNotesOnce c1State
      [.added "a" c1Note1, .added "a" c1Note2] (.ok [])).bufferedNotesEvents
        = [] ∧
    aget (refreshNotesOnce c1State
      [.added "a" c1Note1, .added "a" c1Note2] (.ok [])).notesById "a" =
        some (firebaseNoteToLocal { c1Note2 with id := "a" }) := by
  have h := refresh_success_applies_buffered_once c1State
    [.added "a" c1Note1, .added "a" c1Note2] [] rfl rfl rfl
  refine ⟨h.1, ?_⟩
  rw [h.2.2 "a"]
  rfl

/-- C2: an `added` delta event arriving outside buffering whose id is
resident and whose payload is field-for-field equal to the cached note is
discarded: the reconciler state (map, state store, cache-write count) is
completely unchanged. -/
theorem added_event_equal_is_skipped (s : NotesSyncState) (id : String)
    (n : FirebaseNote) (existing : Note)
    (hbuffering : s.isBufferingNotes = false)
    (hex : aget s.notesById id = some existing)
    (_hsame : isSameNote existing n = true) :
    handleNotesDelta s (.added id n) = s := by
  unfold handleNotesDelta
  rw [hbuffering]
  have hhas : ahas s.notesById id = true := by simp [ahas, hex]
  cases hactive : s.notesSyncActive
  · rfl
  · simp [NotesDeltaEvent.isAdded, NotesDeltaEvent.eventId, hhas]

/-- Concrete instance of C2: redelivering the cached note verbatim
leaves the reconciler state identical. -/
theorem added_event_equal_is_skipped_witness :
    handleNotesDelta c2State (.added "n1" c2Note) = c2State :=
  added_event_equal_is_skipped c2State "n1" c2Note
    (firebaseNoteToLocal { c2Note with id := "n1" }) rfl rfl (by decide)

/-- C3: when the snapshot refresh fails, a warning is logged, the
notes-ready flag is set anyway, buffering ends, the in-memory map is NOT
cleared — the buffered events are applied over it — the buffer is
emptied, and whenever that application changed the map the new map is
flushed to the state store (with a cache write); when it changed nothing
there is nothing to flush. -/
theorem refresh_failure_marks_ready_and_replays (s : NotesSyncState)
    (evs : List NotesDeltaEvent)
    (hactive : s.notesSyncActive = true)
    (hrefr : s.isRefreshingNotes = false)
    (hbuf : s.bufferedNotesEvents = []) :
    (refreshNotesOnce s evs .err).warnings = s.warnings + 1 ∧
    (refreshNotesOnce s evs .err).store.notesReady = true ∧
    (refreshNotesOnce s evs .err).isBufferingNotes = false ∧
    (refreshNotesOnce s evs .err).notesById =
      (applyBufferedNotesEventsToMap s.notesById (bufferOf evs)).1 ∧
    (refreshNotesOnce s evs .err).bufferedNotesEvents = [] ∧
    ((applyBufferedNotesEventsToMap s.notesById (bufferOf evs)).2 = true →
      (refreshNotesOnce s evs .err).store.notes =
        (applyBufferedNotesEventsToMap s.notesById (bufferOf evs)).1.map
          Prod.snd ∧
      (refreshNotesOnce s evs .err).cacheWrites = s.cacheWrites + 1) ∧
    ((applyBufferedNotesEventsToMap s.notesById (bufferOf evs)).2 = false →
      (refreshNotesOnce s evs .err).store.notes = s.store.notes ∧
      (refreshNotesOnce s evs .err).cacheWrites = s.cacheWrites) := by
  rw [refreshNotesOnce_err_eq s evs hactive hrefr hbuf]
  unfold flushBufferedNotesEvents
  cases hr : (applyBufferedNotesEventsToMap s.notesById (bufferOf evs)).2
  · simp [hr, flushNotesToState]
  · simp [hr, flushNotesToState]

/-- Concrete instance of C3: a `removed` event buffered during a failed
refresh is still applied to the (uncleared) map and flushed. -/
theorem refresh_failure_marks_ready_and_replays_witness :
    (refreshNotesOnce c2State [.removed "n1"] .err).warnings = 1 ∧
    (refreshNotesOnce c2State [.removed "n1"] .err).store.notesReady
      = true ∧
    (refreshNotesOnce c2State [.removed "n1"] .err).notesById = [] ∧
    (refreshNotesOnce c2State [.removed "n1"] .err).store.notes = [] := by
  have h := refresh_failure_marks_ready_and_replays c2State
    [.removed "n1"] rfl rfl rfl
  have hr : (applyBufferedNotesEventsToMap c2State.notesById
      (bufferOf [.removed "n1"])).2 = true := by decide
  refine ⟨h.1, h.2.1, ?_, ?_⟩
  · rw [h.2.2.2.1]
    decide
  · rw [(h.2.2.2.2.2.1 hr).1]
    decide

/-! ## Debounced cache writer (`scheduleCacheWrite`, store.types.ts,
lines 447–537)

`cacheWriteTimer`, `pendingCacheWrite` and `lastCacheWriteAt` are
module-level variables — a single slot shared by every caller.  The
timer callback takes the pending payload, drops it if the document is
hidden, and otherwise hands the actual write (`run`, which is what
updates `lastCacheWriteAt` and performs the IndexedDB/localStorage
writes) to `requestIdleCallback` with a 2 s timeout (or `setTimeout 0`).
The event-loop interleaving is modelled as a small-step machine over
timestamped events; `document.hidden` is an oracle of time. -/

/-- `CacheWritePayload` (store.types.ts). -/
structure CacheWritePayload where
  notes : List Note
  images : List CanvasImage
  files : List CanvasFile
  isDarkMode : Bool
deriving Repr, DecidableEq

def CACHE_MIN_INTERVAL_MS : Nat := 10000

def CACHE_DEBOUNCE_MS : Nat := 2000

/-- The `timeout` option passed to `requestIdleCallback` by the timer
callback. -/
def IDLE_TIMEOUT_MS : Nat := 2000

/-- The cache writer's module-level state plus event-loop bookkeeping:
`cacheWriteTimer` holds the absolute fire time of the armed `setTimeout`,
`deferredRuns` the queued idle callbacks (fire time, namespace, payload),
`writes` the log of actual cache writes performed (time, namespace,
payload), and `now` the timestamp of the last processed event. -/
structure CacheWriterState where
  now : Nat
  cacheWriteTimer : Option Nat
  pendingCacheWrite : Option (String × CacheWritePayload)
  lastCacheWriteAt : Nat
  deferredRuns : List (Nat × String × CacheWritePayload)
  writes : List (Nat × String × CacheWritePayload)
deriving Repr, DecidableEq

/-- Initial module state (`cacheWriteTimer = null`,
`pendingCacheWrite = null`, `lastCacheWriteAt = 0`). -/
def cwInit : CacheWriterState :=
  { now := 0, cacheWriteTimer := none, pendingCacheWrite := none,
    lastCacheWriteAt := 0, deferredRuns := [], writes := [] }

/-- Timestamped cache-writer events: a `scheduleCacheWrite(userId,
payload)` call, the armed timer firing, and a deferred idle run
executing. -/
inductive CWEvent where
  | request (t : Nat) (userId : String) (payload : CacheWritePayload)
  | fire (t : Nat)
  | runIdle (t : Nat)
deriving Repr, DecidableEq

/-- A due `setTimeout` callback runs before any event-loop task stamped
after it: an event at time `t` is only admissible while no armed timer
is overdue. -/
def timerAllows (s : CacheWriterState) (t : Nat) : Bool :=
  match s.cacheWriteTimer with
  | some T => t ≤ T
  | none => true

/-- One cache-writer step; `none` marks an inadmissible interleaving.

* `request`: `scheduleCacheWrite` — overwrite the (single, shared)
  pending slot, clear any armed timer and re-arm it after
  `max(CACHE_DEBOUNCE_MS, max(0, lastCacheWriteAt +
  CACHE_MIN_INTERVAL_MS - now))` (truncated `Nat` subtraction is the
  `Math.max(0, ..)`).
* `fire`: the timer callback — take the pending payload; if the document
  is hidden drop it, else enqueue the deferred `run`.
* `runIdle`: a deferred `run` executes within `IDLE_TIMEOUT_MS` of being
  queued — set `lastCacheWriteAt = Date.now()` and perform the actual
  write. -/
def cwStep (hidden : Nat → Bool) (s : CacheWriterState) :
    CWEvent → Option CacheWriterState
  | .request t userId payload =>
    if s.now ≤ t ∧ timerAllows s t = true then
      some { s with
        now := t
        pendingCacheWrite := some (userId, payload)
        cacheWriteTimer :=
          some (t + max CACHE_DEBOUNCE_MS
            (s.lastCacheWriteAt + CACHE_MIN_INTERVAL_MS - t)) }
    else none
  | .fire t =>
    match s.cacheWriteTimer with
    | some T =>
      if s.now ≤ t ∧ t = T then
        let s1 := { s with now := t, cacheWriteTimer := none,
                           pendingCacheWrite := none }
        match s.pendingCacheWrite with
        | none => some s1
        | some (u, p) =>
          if hidden t then some s1
          else some { s1 with
            deferredRuns := s1.deferredRuns ++ [(t, u, p)] }
      else none
    | none => none
  | .runIdle t =>
    match s.deferredRuns with
    | (T, u, p) :: rest =>
      if s.now ≤ t ∧ T ≤ t ∧ t ≤ T + IDLE_TIMEOUT_MS ∧
          timerAllows s t = true then
        some { s with
          now := t
          deferredRuns := rest
          lastCacheWriteAt := t
          writes := s.writes ++ [(t, u, p)] }
      else none
    | [] => none

/-- Run the cache writer over a sequence of events from the initial
module state. -/
def cwExec (hidden : Nat → Bool) (evs : List CWEvent) :
    Option CacheWriterState :=
  evs.foldlM (cwStep hidden) cwInit

/-- Nothing armed, pending or queued. -/
def cwQuiescent (s : CacheWriterState) : Bool :=
  s.cacheWriteTimer.isNone && s.pendingCacheWrite.isNone &&
    s.deferredRuns.isEmpty

/-- Events of the immediate-run discipline: `fireRun` is a timer firing
whose deferred idle run (when one is enqueued) executes at the same
instant with no cache-writer activity in between. -/
inductive CWSyncEvent where
  | request (t : Nat) (userId : String) (payload : CacheWritePayload)
  | fireRun (t : Nat)
deriving Repr, DecidableEq

/-- The immediate-run step, expressed through `cwStep` itself. -/
def cwStepSync (hidden : Nat → Bool) (s : CacheWriterState) :
    CWSyncEvent → Option CacheWriterState
  | .request t u p => cwStep hidden s (.request t u p)
  | .fireRun t =>
    match cwStep hidden s (.fire t) with
    | none => none
    | some s1 =>
      if s1.deferredRuns.isEmpty then some s1
      else cwStep hidden s1 (.runIdle t)

/-- Run the immediate-run discipline from the initial module state. -/
def cwExecSync (hidden : Nat → Bool) (evs : List CWSyncEvent) :
    Option CacheWriterState :=
  evs.foldlM (cwStepSync hidden) cwInit

/-- Invariant of immediate-run executions: no queued idle run survives a
step, any armed timer is at least `CACHE_MIN_INTERVAL_MS` past the last
actual write, the write log respects the minimum interval, and all
logged writes predate `lastCacheWriteAt`. -/
def cwInv (s : CacheWriterState) : Prop :=
  s.deferredRuns = [] ∧
  (∀ T, s.cacheWriteTimer = some T →
    s.lastCacheWriteAt + CACHE_MIN_INTERVAL_MS ≤ T) ∧
  List.Chain' (fun a b => a + CACHE_MIN_INTERVAL_MS ≤ b)
    (s.writes.map Prod.fst) ∧
  (∀ w ∈ s.writes, w.1 ≤ s.lastCacheWriteAt)

/-- Payloads used in the cache-writer witnesses and counterexamples. -/
def cwPayloadA : CacheWritePayload :=
  { notes := [], images := [], files := [], isDarkMode := false }

def cwPayloadB : CacheWritePayload :=
  { notes := [], images := [], files := [], isDarkMode := true }

/-- Cross-namespace overwrite scenario: two `scheduleCacheWrite` calls
for different namespaces inside one debounce window, then the timer
fires (document visible) and the idle run executes. -/
def c4Trace : List CWEvent :=
  [.request 100000 "a" cwPayloadA, .request 100100 "b" cwPayloadB,
   .fire 102100, .runIdle 102100]

/-- Deferred-run race scenario: the first write's idle run is postponed
(within its 2 s idle timeout) past a new request, so the next timer is
armed against a stale `lastCacheWriteAt`. -/
def c5Trace : List CWEvent :=
  [.request 100000 "u" cwPayloadA, .fire 102000,
   .request 102100 "u" cwPayloadB, .runIdle 103900,
   .fire 104100, .runIdle 104150]

/-- Immediate-run scenario used to witness the minimum-interval bound. -/
def c5SyncTrace : List CWSyncEvent :=
  [.request 100000 "u" cwPayloadA, .fireRun 102000,
   .request 112000 "u" cwPayloadB, .fireRun 114000]

/-- Final state of `c5SyncTrace`. -/
def c5SyncFinal : CacheWriterState :=
  { now := 114000, cacheWriteTimer := none, pendingCacheWrite := none,
    lastCacheWriteAt := 114000, deferredRuns := [],
    writes := [(102000, "u", cwPayloadA), (114000, "u", cwPayloadB)] }

/-- State after a single `scheduleCacheWrite` from the initial state. -/
def c5ReqState : CacheWriterState :=
  { now := 100000, cacheWriteTimer := some 102000,
    pendingCacheWrite := some ("u", cwPayloadA), lastCacheWriteAt := 0,
    deferredRuns := [], writes := [] }

theorem mem_of_getLast?_eq {α : Type} {l : List α} {a : α}
    (h : l.getLast? = some a) : a ∈ l := by
  induction l with
  | nil => cases h
  | cons b t ih =>
    rw [getLast?_cons_or] at h
    cases ht : t.getLast? with
    | none =>
      rw [ht] at h
      simp only [Option.or] at h
      injection h with h
      simp [h]
    | some c =>
      rw [ht] at h
      simp only [Option.or] at h
      injection h with h
      subst h
      exact List.mem_cons_of_mem _ (ih ht)

/-- Anatomy of a successful `request` step. -/
theorem cwStep_request_eq (hidden : Nat → Bool) (s s' : CacheWriterState)
    (t : Nat) (u : String) (p : CacheWritePayload)
    (h : cwStep hidden s (.request t u p) = some s') :
    s.now ≤ t ∧ timerAllows s t = true ∧
    s' = { s with
      now := t
      pendingCacheWrite := some (u, p)
      cacheWriteTimer :=
        some (t + max CACHE_DEBOUNCE_MS
          (s.lastCacheWriteAt + CACHE_MIN_INTERVAL_MS - t)) } := by
  simp only [cwStep] at h
  split at h
  · next hc =>
    injection h with h
    exact ⟨hc.1, hc.2, h.symm⟩
  · cases h

/-- The new timer of a request is at least the minimum interval past
the last completed write. -/
theorem request_timer_past_min_interval (last t : Nat) :
    last + CACHE_MIN_INTERVAL_MS ≤
      t + max CACHE_DEBOUNCE_MS (last + CACHE_MIN_INTERVAL_MS - t) := by
  have h1 := Nat.le_max_right CACHE_DEBOUNCE_MS
    (last + CACHE_MIN_INTERVAL_MS - t)
  omega

/-- Processing a nonempty run of `scheduleCacheWrite` calls (no timer
firing in between): the single pending slot ends holding the last
request's namespace and payload, a timer is armed, and nothing was
written. -/
theorem cwExec_requests_pending (hidden : Nat → Bool) (ns : String)
    (q : Nat × CacheWritePayload) (reqs : List (Nat × CacheWritePayload))
    (s0 s1 : CacheWriterState)
    (hexec : ((q :: reqs).map
      (fun r => CWEvent.request r.1 ns r.2)).foldlM
      (cwStep hidden) s0 = some s1) :
    s1.pendingCacheWrite =
      ((q :: reqs).getLast?).map (fun r => (ns, r.2)) ∧
    s1.lastCacheWriteAt = s0.lastCacheWriteAt ∧
    s1.deferredRuns = s0.deferredRuns ∧
    s1.writes = s0.writes ∧
    ∃ T, s1.cacheWriteTimer = some T := by
  induction reqs generalizing q s0 with
  | nil =>
    rw [List.map_cons, List.map_nil, List.foldlM_cons] at hexec
    cases hstep : cwStep hidden s0 (.request q.1 ns q.2) with
    | none =>
      rw [hstep] at hexec
      cases hexec
    | some sA =>
      rw [hstep] at hexec
      simp only [List.foldlM_nil, Option.bind_eq_bind,
        Option.some_bind] at hexec
      obtain ⟨-, -, hA⟩ := cwStep_request_eq hidden s0 sA _ _ _ hstep
      cases hexec
      subst hA
      refine ⟨rfl, rfl, rfl, rfl, _, rfl⟩
  | cons q' reqs ih =>
    rw [List.map_cons, List.foldlM_cons] at hexec
    cases hstep : cwStep hidden s0 (.request q.1 ns q.2) with
    | none =>
      rw [hstep] at hexec
      cases hexec
    | some sA =>
      rw [hstep] at hexec
      simp only [Option.bind_eq_bind, Option.some_bind] at hexec
      obtain ⟨-, -, hA⟩ := cwStep_request_eq hidden s0 sA _ _ _ hstep
      obtain ⟨hpend, hlast, hdef, hwr, hT⟩ := ih q' sA hexec
      subst hA
      refine ⟨?_, hlast, hdef, hwr, hT⟩
      rw [hpend]
      rw [getLast?_cons_or (q) (q' :: reqs)]
      cases hl : (q' :: reqs).getLast? with
      | none =>
        rw [getLast?_cons_or] at hl
        cases hm : reqs.getLast? <;> rw [hm] at hl <;> simp [Option.or] at hl
      | some r => simp [Option.or]

/-- C4 (amended): for one namespace, N ≥ 1 `scheduleCacheWrite` calls
inside one debounce window (so that no timer fires between them),
document visible at fire time, lead to exactly one actual cache write,
carrying the payload of the last request; earlier payloads are never
written.  (The pending slot is a single module-level variable shared by
all namespaces, so the per-namespace part of the original claim is
refuted separately.) -/
theorem debounce_coalesces_to_last_request (hidden : Nat → Bool)
    (ns : String) (q : Nat × CacheWritePayload)
    (reqs : List (Nat × CacheWritePayload)) (T : Nat)
    (s : CacheWriterState)
    (hexec : cwExec hidden
      (((q :: reqs).map (fun r => CWEvent.request r.1 ns r.2)) ++
        [CWEvent.fire T, CWEvent.runIdle T]) = some s) :
    s.writes.map (fun w => (w.2.1, w.2.2)) =
      [(ns, ((q :: reqs).getLast (List.cons_ne_nil q reqs)).2)] ∧
    cwQuiescent s = true ∧ hidden T = false := by
  rw [cwExec, List.foldlM_append] at hexec
  simp only [Option.bind_eq_bind] at hexec
  cases h1 : ((q :: reqs).map
      (fun r => CWEvent.request r.1 ns r.2)).foldlM
      (cwStep hidden) cwInit with
  | none =>
    rw [h1] at hexec
    cases hexec
  | some s1 =>
    rw [h1] at hexec
    simp only [Option.some_bind] at hexec
    obtain ⟨hpend, hlast, hdef, hwr, T1, hT1⟩ :=
      cwExec_requests_pending hidden ns q reqs cwInit s1 h1
    rw [List.getLast?_eq_getLast_of_ne_nil (List.cons_ne_nil q reqs)]
      at hpend
    simp only [Option.map_some'] at hpend
    rw [List.foldlM_cons] at hexec
    cases h2 : cwStep hidden s1 (.fire T) with
    | none =>
      rw [h2] at hexec
      cases hexec
    | some s2 =>
      rw [h2] at hexec
      simp only [Option.some_bind, List.foldlM_cons, List.foldlM_nil]
        at hexec
      -- dissect the fire step
      simp only [cwStep, hT1] at h2
      split at h2
      · rw [hpend] at h2
        simp only [] at h2
        by_cases hh : hidden T
        · rw [if_pos (by simp [hh])] at h2
          injection h2 with h2
          subst h2
          simp only [Option.bind_eq_bind, Option.some_bind, cwStep, hdef,
            cwInit] at hexec
          cases hexec
        · rw [if_neg (by simp [hh])] at h2
          injection h2 with h2
          subst h2
          simp only [Option.bind_eq_bind, Option.some_bind, cwStep, hdef,
            cwInit, List.nil_append] at hexec
          split at hexec
          · simp only [Option.pure_def] at hexec
            injection hexec with hexec
            subst hexec
            rw [hwr]
            refine ⟨rfl, rfl, ?_⟩
            cases hhh : hidden T
            · rfl
            · exact absurd hhh hh
          · cases hexec
      · cases h2

/-- Each step of the immediate-run discipline preserves `cwInv`. -/
theorem cwStepSync_inv (hidden : Nat → Bool) (s0 s1 : CacheWriterState)
    (e : CWSyncEvent) (hinv : cwInv s0)
    (hstep : cwStepSync hidden s0 e = some s1) : cwInv s1 := by
  obtain ⟨hdef, htimer, hchain, hwle⟩ := hinv
  cases e with
  | request t u p =>
    obtain ⟨-, -, heq⟩ := cwStep_request_eq hidden s0 s1 t u p hstep
    subst heq
    refine ⟨hdef, ?_, hchain, hwle⟩
    intro T hT
    injection hT with hT
    subst hT
    exact request_timer_past_min_interval _ _
  | fireRun t =>
    simp only [cwStepSync] at hstep
    cases hfire : cwStep hidden s0 (.fire t) with
    | none =>
      rw [hfire] at hstep
      cases hstep
    | some sA =>
      rw [hfire] at hstep
      simp only [cwStep] at hfire
      cases hT : s0.cacheWriteTimer with
      | none =>
        rw [hT] at hfire
        cases hfire
      | some T =>
        rw [hT] at hfire
        simp only [] at hfire
        have hTmin := htimer T hT
        split at hfire
        · rename_i hcond
          obtain ⟨hnow, htT⟩ := hcond
          subst htT
          cases hpend : s0.pendingCacheWrite with
          | none =>
            rw [hpend] at hfire
            simp only [] at hfire
            injection hfire with hfire
            subst hfire
            simp only [hdef, List.isEmpty_nil] at hstep
            rw [if_pos trivial] at hstep
            injection hstep with hstep
            subst hstep
            exact ⟨rfl, (fun T' hT' => by cases hT'), hchain, hwle⟩
          | some up =>
            obtain ⟨u, p⟩ := up
            rw [hpend] at hfire
            simp only [] at hfire
            by_cases hh : hidden t
            · rw [if_pos (by simp [hh])] at hfire
              injection hfire with hfire
              subst hfire
              simp only [hdef, List.isEmpty_nil] at hstep
              rw [if_pos trivial] at hstep
              injection hstep with hstep
              subst hstep
              exact ⟨rfl, (fun T' hT' => by cases hT'), hchain, hwle⟩
            · rw [if_neg (by simp [hh])] at hfire
              injection hfire with hfire
              subst hfire
              simp only [hdef, List.nil_append, List.isEmpty_cons] at hstep
              rw [if_neg Bool.false_ne_true] at hstep
              simp only [cwStep] at hstep
              split at hstep
              · injection hstep with hstep
                subst hstep
                refine ⟨rfl, (fun T' hT' => by cases hT'), ?_, ?_⟩
                · simp only [List.map_append, List.map_cons, List.map_nil]
                  rw [List.chain'_append]
                  refine ⟨hchain, by simp, ?_⟩
                  intro x hx y hy
                  simp only [List.head?_cons, Option.mem_def] at hy
                  injection hy with hy
                  subst hy
                  have hxmem : x ∈ s0.writes.map Prod.fst :=
                    mem_of_getLast?_eq hx
                  obtain ⟨w, hwmem, hwx⟩ := List.mem_map.mp hxmem
                  have := hwle w hwmem
                  omega
                · intro w hw
                  simp only [List.mem_append, List.mem_singleton] at hw
                  rcases hw with hw | hw
                  · have := hwle w hw
                    show w.1 ≤ t
                    omega
                  · subst hw
                    show t ≤ t
                    exact Nat.le.refl
              · cases hstep
        · cases hfire

/-- `cwInv` holds along every immediate-run execution. -/
theorem cwExecSync_inv (hidden : Nat → Bool) (evs : List CWSyncEvent)
    (s0 s : CacheWriterState) (hinv : cwInv s0)
    (h : evs.foldlM (cwStepSync hidden) s0 = some s) : cwInv s := by
  induction evs generalizing s0 with
  | nil =>
    rw [List.foldlM_nil] at h
    injection h with h
    subst h
    exact hinv
  | cons e t ih =>
    rw [List.foldlM_cons] at h
    cases hstep : cwStepSync hidden s0 e with
    | none =>
      rw [hstep] at h
      cases h
    | some sA =>
      rw [hstep] at h
      simp only [Option.bind_eq_bind, Option.some_bind] at h
      exact ih sA (cwStepSync_inv hidden s0 sA e hinv hstep) h

/-- C5 (amended): (1) the delay armed by a `scheduleCacheWrite` call
equals `max(CACHE_DEBOUNCE_MS, time remaining until CACHE_MIN_INTERVAL_MS
has elapsed since the last completed write)`, exactly as claimed; (2) in
executions where each write's deferred idle run executes immediately
when its timer fires (no cache-writer activity between the firing and
the run), no two actual cache writes occur within `CACHE_MIN_INTERVAL_MS`
of each other.  Because the actual write runs in a deferred idle
callback and only it updates `lastCacheWriteAt`, the bound can be broken
when a new request slips between a firing and its deferred run (see the
recorded counterexample), so (2) is the amended form of the claim's
second conjunct. -/
theorem cache_write_delay_and_min_interval (hidden : Nat → Bool) :
    (∀ (s s' : CacheWriterState) (t : Nat) (u : String)
        (p : CacheWritePayload),
      cwStep hidden s (.request t u p) = some s' →
      s'.cacheWriteTimer =
        some (t + max CACHE_DEBOUNCE_MS
          (s.lastCacheWriteAt + CACHE_MIN_INTERVAL_MS - t))) ∧
    (∀ (evs : List CWSyncEvent) (s : CacheWriterState),
      cwExecSync hidden evs = some s →
      List.Chain' (fun a b => a + CACHE_MIN_INTERVAL_MS ≤ b)
        (s.writes.map Prod.fst)) := by
  constructor
  · intro s s' t u p h
    obtain ⟨-, -, heq⟩ := cwStep_request_eq hidden s s' t u p h
    subst heq
    rfl
  · intro evs s h
    exact (cwExecSync_inv hidden evs cwInit s
      ⟨rfl, (fun T hT => by cases hT), (by simp [cwInit]),
        (by simp [cwInit])⟩ h).2.2.1

/-- Instantiation of C5's amended statement: a concrete request arms the
timer per the delay formula, and a concrete immediate-run execution with
two writes respects the minimum interval. -/
theorem cache_write_delay_and_min_interval_witness :
    c5ReqState.cacheWriteTimer =
      some (100000 + max CACHE_DEBOUNCE_MS
        (0 + CACHE_MIN_INTERVAL_MS - 100000)) ∧
    List.Chain' (fun a b => a + CACHE_MIN_INTERVAL_MS ≤ b)
      (c5SyncFinal.writes.map Prod.fst) := by
  constructor
  · exact (cache_write_delay_and_min_interval (fun _ => false)).1
      cwInit c5ReqState 100000 "u" cwPayloadA (by decide)
  · exact (cache_write_delay_and_min_interval (fun _ => false)).2
      c5SyncTrace c5SyncFinal (by decide)

/-- Counterexample to C5 as stated: in `c5Trace` the first write's idle
run executes at 103 900 (within its 2 s idle timeout of the 102 000
firing) after a new request was accepted at 102 100 against the stale
`lastCacheWriteAt = 0`; the second write then lands at 104 150 — 250 ms
later, far less than the 10 s minimum interval. -/
theorem two_writes_within_min_interval_counterexample :
    (cwExec (fun _ => false) c5Trace).map CacheWriterState.writes =
      some [(103900, "u", cwPayloadA), (104150, "u", cwPayloadB)] ∧
    104150 - 103900 < CACHE_MIN_INTERVAL_MS := by
  exact ⟨by decide, by decide⟩

/-- Counterexample to C4 as stated: the pending payload is one shared
slot, not per-namespace — namespace `b`'s request discards namespace
`a`'s pending payload, and the completed, quiescent run performs exactly
one write, for `b`; `a`'s payload is never written. -/
theorem cross_namespace_pending_discarded_counterexample :
    (cwExec (fun _ => false) c4Trace).map
      (fun s => (s.writes, cwQuiescent s)) =
      some ([(102100, "b", cwPayloadB)], true) := by
  decide

/-- Final state of the C4 witness scenario. -/
def c4WitnessState : CacheWriterState :=
  { now := 102100, cacheWriteTimer := none, pendingCacheWrite := none,
    lastCacheWriteAt := 102100, deferredRuns := [],
    writes := [(102100, "u", cwPayloadB)] }

/-- Instantiation of C4's amended statement: two same-namespace requests
in one window produce exactly one write, carrying the second payload. -/
theorem debounce_coalesces_to_last_request_witness :
    cwExec (fun _ => false)
      [CWEvent.request 100000 "u" cwPayloadA,
       CWEvent.request 100100 "u" cwPayloadB,
       CWEvent.fire 102100, CWEvent.runIdle 102100] =
        some c4WitnessState ∧
    c4WitnessState.writes.map (fun w => (w.2.1, w.2.2)) =
      [("u", cwPayloadB)] ∧
    cwQuiescent c4WitnessState = true := by
  have hexec : cwExec (fun _ => false)
      [CWEvent.request 100000 "u" cwPayloadA,
       CWEvent.request 100100 "u" cwPayloadB,
       CWEvent.fire 102100, CWEvent.runIdle 102100] =
        some c4WitnessState := by decide
  have h := debounce_coalesces_to_last_request (fun _ => false) "u"
    (100000, cwPayloadA) [(100100, cwPayloadB)] 102100 c4WitnessState hexec
  exact ⟨hexec, h.1, h.2.1⟩

/-! ## Application state store factory (`createCanvasStoreCore`)

One parameterized factory produces the CRUD/selection action set over a
`StorageAdapter`.  Effects of the adapter are explicit parameters: an
`addX` action carries the save acknowledgement (`some id` when
`adapter.saveX` resolved with `id`, `none` when it rejected — the
`catch` only logs); `Math.random` color choice and `new Date()` are
parameters too.  `updateNote(id, {zIndex})` after a selection does not
touch the local state, so it has no state effect here. -/

/-- `interface Viewport`. -/
structure Viewport where
  x : Int
  y : Int
  scale : Int
deriving Repr, DecidableEq

/-- The slice of `BaseCanvasStore` state the studied actions touch. -/
structure CanvasStoreState where
  notes : List Note
  images : List CanvasImage
  files : List CanvasFile
  viewport : Viewport
  selectedNoteId : Option String
  selectedImageId : Option String
  selectedFileId : Option String
  isDarkMode : Bool
deriving Repr, DecidableEq

/-- The factory's initial state. -/
def initialCanvasState : CanvasStoreState :=
  { notes := [], images := [], files := []
    viewport := { x := 0, y := 0, scale := 1 }
    selectedNoteId := none, selectedImageId := none, selectedFileId := none
    isDarkMode := false }

/-- `defaultColors`. -/
def defaultColors : List String :=
  ["yellow", "pink", "blue", "green", "purple", "orange"]

/-- `Omit<CanvasImage, 'id' | 'createdAt'>`. -/
structure ImageInput where
  x : Int
  y : Int
  width : Int
  height : Int
  url : String
  originalWidth : Int
  originalHeight : Int
  fileName : String
  fileSize : Int
deriving Repr, DecidableEq

/-- `{ ...image, id, createdAt }`. -/
def ImageInput.withId (img : ImageInput) (id : String) (createdAt : Int) :
    CanvasImage :=
  { id := id, x := img.x, y := img.y, width := img.width,
    height := img.height, url := img.url,
    originalWidth := img.originalWidth,
    originalHeight := img.originalHeight, fileName := img.fileName,
    fileSize := img.fileSize, createdAt := createdAt }

/-- `Omit<CanvasFile, 'id' | 'createdAt'>` (sans the PDF payload no
studied path touches). -/
structure FileInput where
  x : Int
  y : Int
  width : Int
  height : Int
  fileName : String
  fileType : String
  fileSize : Int
  url : String
  thumbnailUrl : Option String
deriving Repr, DecidableEq

/-- `{ ...file, id, createdAt }`. -/
def FileInput.withId (f : FileInput) (id : String) (createdAt : Int) :
    CanvasFile :=
  { id := id, x := f.x, y := f.y, width := f.width, height := f.height,
    fileName := f.fileName, fileType := f.fileType,
    fileSize := f.fileSize, url := f.url,
    thumbnailUrl := f.thumbnailUrl, createdAt := createdAt }

/-- `Math.max(...state.notes.map(n => n.zIndex || 0), 0)`. -/
def maxZIndex (notes : List Note) : Int :=
  notes.foldl (fun m n => max m (orZero n.zIndex)) 0

/-- One store action together with its environment effects (save
acknowledgement, random color index, current time). -/
inductive CanvasAction where
  | addNote (x y : Int) (colorIdx : Nat) (now : Int)
      (saveResult : Option String)
  | deleteNote (id : String)
  | selectNote (id : Option String)
  | addImage (image : ImageInput) (now : Int) (saveResult : Option String)
  | deleteImage (id : String)
  | selectImage (id : Option String)
  | addFile (file : FileInput) (now : Int) (saveResult : Option String)
  | deleteFile (id : String)
  | selectFile (id : Option String)
deriving Repr, DecidableEq

/-- The store actions of `createCanvasStoreCore`, as state
transformers.  Each branch mirrors the corresponding `set(...)` call;
an add whose save rejected leaves the state unchanged (the `catch` only
logs), and `selectNote` with an id absent from `state.notes` performs no
update at all. -/
def applyAction (s : CanvasStoreState) : CanvasAction → CanvasStoreState
  | .addNote x y colorIdx now saveResult =>
    match saveResult with
    | some newId =>
      { s with
        notes := s.notes ++
          [{ id := newId, x := x, y := y, width := 260, height := 180,
             content := "",
             color := defaultColors.getD
               (colorIdx % defaultColors.length) "yellow",
             zIndex := some (maxZIndex s.notes + 1), isImportant := none,
             createdAt := now, updatedAt := now }]
        selectedNoteId := some newId
        selectedImageId := none
        selectedFileId := none }
    | none => s
  | .deleteNote id =>
    { s with
      notes := s.notes.filter (fun n => ¬ n.id = id)
      selectedNoteId :=
        if s.selectedNoteId = some id then none else s.selectedNoteId }
  | .selectNote oid =>
    match oid with
    | some id =>
      if (s.notes.find? (fun n => n.id = id)).isSome then
        { s with
          notes := s.notes.map (fun note =>
            if note.id = id then
              { note with zIndex := some (maxZIndex s.notes + 1) }
            else note)
          selectedNoteId := some id
          selectedImageId := none
          selectedFileId := none }
      else s
    | none =>
      { s with selectedNoteId := none, selectedImageId := none,
               selectedFileId := none }
  | .addImage image now saveResult =>
    match saveResult with
    | some newId =>
      { s with
        images := s.images ++ [image.withId newId now]
        selectedImageId := some newId
        selectedNoteId := none
        selectedFileId := none }
    | none => s
  | .deleteImage id =>
    { s with
      images := s.images.filter (fun i => ¬ i.id = id)
      selectedImageId :=
        if s.selectedImageId = some id then none else s.selectedImageId }
  | .selectImage oid =>
    { s with selectedImageId := oid, selectedNoteId := none,
             selectedFileId := none }
  | .addFile file now saveResult =>
    match saveResult with
    | some newId =>
      { s with
        files := s.files ++ [file.withId newId now]
        selectedFileId := some newId
        selectedNoteId := none
        selectedImageId := none }
    | none => s
  | .deleteFile id =>
    { s with
      files := s.files.filter (fun f => ¬ f.id = id)
      selectedFileId :=
        if s.selectedFileId = some id then none else s.selectedFileId }
  | .selectFile oid =>
    { s with selectedFileId := oid, selectedNoteId := none,
             selectedImageId := none }

/-- Number of non-null selection ids. -/
def selectionCount (s : CanvasStoreState) : Nat :=
  (if s.selectedNoteId.isSome then 1 else 0) +
  (if s.selectedImageId.isSome then 1 else 0) +
  (if s.selectedFileId.isSome then 1 else 0)

/-- At most one of the three selection ids is non-null. -/
def atMostOneSelection (s : CanvasStoreState) : Prop :=
  selectionCount s ≤ 1

/-- The stacking order of the note with a given id, with the `|| 0`
default. -/
def zOf (notes : List Note) (id : String) : Option Int :=
  (notes.find? (fun n => n.id = id)).map (fun n => orZero n.zIndex)

/-- First note of `c7State`. -/
def c7NoteA : Note :=
  { id := "a", x := 0, y := 0, width := 260, height := 180,
    content := "", color := "yellow", zIndex := some 5,
    isImportant := none, createdAt := 0, updatedAt := 0 }

/-- Second note of `c7State`, initially stacked above `c7NoteA`. -/
def c7NoteB : Note :=
  { id := "b", x := 10, y := 10, width := 260, height := 180,
    content := "", color := "pink", zIndex := some 9,
    isImportant := none, createdAt := 0, updatedAt := 0 }

/-- A store holding two notes, used to witness the selection claims. -/
def c7State : CanvasStoreState :=
  { initialCanvasState with notes := [c7NoteA, c7NoteB] }

/-! ### Selection and stacking lemmas -/

theorem applyAction_preserves_selection (s : CanvasStoreState)
    (a : CanvasAction) (h : atMostOneSelection s) :
    atMostOneSelection (applyAction s a) := by
  unfold atMostOneSelection selectionCount at h ⊢
  cases a with
  | addNote x y c n r =>
    cases r with
    | some id => simp [applyAction]
    | none => exact h
  | deleteNote id =>
    by_cases hc : s.selectedNoteId = some id <;>
      simp [applyAction, hc] <;> omega
  | selectNote oid =>
    cases oid with
    | some id =>
      by_cases hf : (s.notes.find? (fun n => n.id = id)).isSome = true
      · simp [applyAction, hf]
      · simpa [applyAction, hf] using h
    | none => simp [applyAction]
  | addImage i n r =>
    cases r with
    | some id => simp [applyAction]
    | none => exact h
  | deleteImage id =>
    by_cases hc : s.selectedImageId = some id <;>
      simp [applyAction, hc] <;> omega
  | selectImage oid => cases oid <;> simp [applyAction]
  | addFile f n r =>
    cases r with
    | some id => simp [applyAction]
    | none => exact h
  | deleteFile id =>
    by_cases hc : s.selectedFileId = some id <;>
      simp [applyAction, hc] <;> omega
  | selectFile oid => cases oid <;> simp [applyAction]

theorem foldl_preserves_selection (acts : List CanvasAction)
    (s : CanvasStoreState) (h : atMostOneSelection s) :
    atMostOneSelection (acts.foldl applyAction s) := by
  induction acts generalizing s with
  | nil => exact h
  | cons a t ih => exact ih _ (applyAction_preserves_selection s a h)

/-- C6: after any sequence of store actions from the initial state, at
most one of `selectedNoteId`/`selectedImageId`/`selectedFileId` is
non-null; and each select action either performs no state update at all
(`selectNote` of an id absent from the store) or clears the other two
selection ids in that same update. -/
theorem selection_invariant :
    (∀ acts : List CanvasAction,
      atMostOneSelection (acts.foldl applyAction initialCanvasState)) ∧
    (∀ (s : CanvasStoreState) (oid : Option String),
      (applyAction s (.selectNote oid) = s ∨
        ((applyAction s (.selectNote oid)).selectedImageId = none ∧
         (applyAction s (.selectNote oid)).selectedFileId = none)) ∧
      ((applyAction s (.selectImage oid)).selectedNoteId = none ∧
       (applyAction s (.selectImage oid)).selectedFileId = none) ∧
      ((applyAction s (.selectFile oid)).selectedNoteId = none ∧
       (applyAction s (.selectFile oid)).selectedImageId = none)) := by
  constructor
  · intro acts
    exact foldl_preserves_selection acts initialCanvasState
      (by unfold atMostOneSelection; decide)
  · intro s oid
    refine ⟨?_, ⟨rfl, rfl⟩, ⟨rfl, rfl⟩⟩
    cases oid with
    | none => exact Or.inr ⟨rfl, rfl⟩
    | some id =>
      by_cases hf : (s.notes.find? (fun n => n.id = id)).isSome = true
      · exact Or.inr (by simp [applyAction, hf])
      · exact Or.inl (by simp [applyAction, hf])

theorem find?_map_upd (notes : List Note) (id k : String)
    (upd : Note → Note) (hid : ∀ n, (upd n).id = n.id) :
    (notes.map (fun n => if n.id = id then upd n else n)).find?
        (fun n => n.id = k) =
      (notes.find? (fun n => n.id = k)).map
        (fun n => if n.id = id then upd n else n) := by
  induction notes with
  | nil => rfl
  | cons n t ih =>
    by_cases hk : n.id = k
    · have h1 : ((if n.id = id then upd n else n).id = k) := by
        by_cases hi : n.id = id
        · rw [if_pos hi, hid n]
          exact hk
        · rw [if_neg hi]
          exact hk
      -- the mapped head still matches, and is the mapped original head
      rw [List.map_cons, List.find?_cons_of_pos _ (by simpa using h1),
        List.find?_cons_of_pos _ (by simpa using hk)]
      rfl
    · have h1 : ¬ ((if n.id = id then upd n else n).id = k) := by
        by_cases hi : n.id = id
        · rw [if_pos hi, hid n]
          exact hk
        · rw [if_neg hi]
          exact hk
      rw [List.map_cons, List.find?_cons_of_neg _ (by simpa using h1),
        List.find?_cons_of_neg _ (by simpa using hk)]
      exact ih

theorem le_foldl_max (f : Note → Int) (l : List Note) (acc : Int) :
    acc ≤ l.foldl (fun m n => max m (f n)) acc := by
  induction l generalizing acc with
  | nil => exact le_refl acc
  | cons n t ih => exact le_trans (le_max_left acc (f n)) (ih _)

theorem mem_le_foldl_max (f : Note → Int) (l : List Note) (acc : Int)
    (n : Note) (h : n ∈ l) : f n ≤ l.foldl (fun m n => max m (f n)) acc := by
  induction l generalizing acc with
  | nil => cases h
  | cons m t ih =>
    rcases List.mem_cons.mp h with h | h
    · subst h
      exact le_trans (le_max_right acc (f n)) (le_foldl_max f t _)
    · exact ih _ h

theorem mem_le_maxZIndex (notes : List Note) (n : Note) (h : n ∈ notes) :
    orZero n.zIndex ≤ maxZIndex notes :=
  mem_le_foldl_max (fun n => orZero n.zIndex) notes 0 n h

/-- C7: selecting note `a` and then a different note `b`, both present
in the store, leaves `b` stacked strictly above `a`: each selection sets
the selected note's `zIndex` to `max(all zIndices, 0) + 1`. -/
theorem selectNote_zIndex_monotone (s : CanvasStoreState) (a b : String)
    (hab : a ≠ b)
    (ha : (s.notes.find? (fun n => n.id = a)).isSome = true)
    (hb : (s.notes.find? (fun n => n.id = b)).isSome = true) :
    ∃ za zb,
      zOf (applyAction (applyAction s (.selectNote (some a)))
        (.selectNote (some b))).notes a = some za ∧
      zOf (applyAction (applyAction s (.selectNote (some a)))
        (.selectNote (some b))).notes b = some zb ∧
      za < zb := by
  obtain ⟨na0, hna0⟩ := Option.isSome_iff_exists.mp ha
  obtain ⟨nb0, hnb0⟩ := Option.isSome_iff_exists.mp hb
  have hna0id : na0.id = a := by simpa using List.find?_some hna0
  have hnb0id : nb0.id = b := by simpa using List.find?_some hnb0
  set s1 := applyAction s (CanvasAction.selectNote (some a)) with hs1
  have h1notes : s1.notes = s.notes.map (fun note =>
      if note.id = a then
        { note with zIndex := some (maxZIndex s.notes + 1) }
      else note) := by
    rw [hs1]
    simp [applyAction, ha]
  have hfa1 : s1.notes.find? (fun n => n.id = a) =
      some { na0 with zIndex := some (maxZIndex s.notes + 1) } := by
    rw [h1notes, find?_map_upd s.notes a a
      (fun n => { n with zIndex := some (maxZIndex s.notes + 1) })
      (fun n => rfl), hna0]
    simp [hna0id]
  have hfb1 : s1.notes.find? (fun n => n.id = b) = some nb0 := by
    rw [h1notes, find?_map_upd s.notes a b
      (fun n => { n with zIndex := some (maxZIndex s.notes + 1) })
      (fun n => rfl), hnb0]
    have hnab : ¬ nb0.id = a := by
      rw [hnb0id]
      exact fun hc => hab hc.symm
    simp [hnab]
  have hb1 : (s1.notes.find? (fun n => n.id = b)).isSome = true := by
    rw [hfb1]
    rfl
  have h2notes : (applyAction s1 (.selectNote (some b))).notes =
      s1.notes.map (fun note =>
        if note.id = b then
          { note with zIndex := some (maxZIndex s1.notes + 1) }
        else note) := by
    simp [applyAction, hb1]
  have hfa2 : (applyAction s1 (.selectNote (some b))).notes.find?
      (fun n => n.id = a) =
      some { na0 with zIndex := some (maxZIndex s.notes + 1) } := by
    rw [h2notes, find?_map_upd s1.notes b a
      (fun n => { n with zIndex := some (maxZIndex s1.notes + 1) })
      (fun n => rfl), hfa1]
    simp [hna0id, hab]
  have hfb2 : (applyAction s1 (.selectNote (some b))).notes.find?
      (fun n => n.id = b) =
      some { nb0 with zIndex := some (maxZIndex s1.notes + 1) } := by
    rw [h2notes, find?_map_upd s1.notes b b
      (fun n => { n with zIndex := some (maxZIndex s1.notes + 1) })
      (fun n => rfl), hfb1]
    simp [hnb0id]
  have hmem : { na0 with zIndex := some (maxZIndex s.notes + 1) } ∈
      s1.notes := List.mem_of_find?_eq_some hfa1
  have hle : maxZIndex s.notes + 1 ≤ maxZIndex s1.notes := by
    have := mem_le_maxZIndex _ _ hmem
    simpa [orZero] using this
  refine ⟨maxZIndex s.notes + 1, maxZIndex s1.notes + 1, ?_, ?_, ?_⟩
  · rw [zOf, hfa2]
    rfl
  · rw [zOf, hfb2]
    rfl
  · omega

/-- Concrete instance of C7: with initial stacking 5 (note "a") and 9
(note "b"), selecting "a" then "b" leaves "b" strictly above "a". -/
theorem selectNote_zIndex_monotone_witness :
    ∃ za zb,
      zOf (applyAction (applyAction c7State (.selectNote (some "a")))
        (.selectNote (some "b"))).notes "a" = some za ∧
      zOf (applyAction (applyAction c7State (.selectNote (some "a")))
        (.selectNote (some "b"))).notes "b" = some zb ∧
      za < zb :=
  selectNote_zIndex_monotone c7State "a" "b" (by decide) (by decide)
    (by decide)

/-! ## Local storage adapter (`LocalStorageAdapter`,
src/store/adapters/FirebaseStorageAdapter.ts)

The adapter keeps everything in one serialized blob under its
`storageKey`; serialization/parsing is the identity here.  Whether
`localStorage.setItem` throws (and with which error name) is the
environment's verdict, passed as the `writeFailure` parameter;
`generateId` and `new Date()` are parameters likewise.  `toast.error`
calls and `console.warn` calls are counted. -/

/-- The `name` of a thrown storage error. -/
inductive JsErrorName where
  | quotaExceededError
  | otherError
deriving Repr, DecidableEq

/-- The optional-field settings record of the blob. -/
structure LocalSettings where
  isDarkMode : Option Bool
  viewport : Option Viewport
deriving Repr, DecidableEq

/-- `LocalStorageData`: the parsed blob. -/
structure LocalStorageData where
  notes : List (String × Note)
  images : List (String × CanvasImage)
  files : List (String × CanvasFile)
  settings : LocalSettings
deriving Repr, DecidableEq

/-- `{ notes: {}, images: {}, files: {}, settings: {} }`. -/
def emptyLocalStorageData : LocalStorageData :=
  { notes := [], images := [], files := [],
    settings := { isDarkMode := none, viewport := none } }

/-- The browser `localStorage` slot for the adapter's key, plus
observation counters for `toast.error` and `console.warn`. -/
structure LocalStorageEnv where
  blob : Option LocalStorageData
  toastErrors : Nat
  consoleWarnings : Nat
deriving Repr, DecidableEq

/-- `getData()`: parse the stored blob, or the empty shape when the key
is absent (or unparseable). -/
def getData (env : LocalStorageEnv) : LocalStorageData :=
  env.blob.getD emptyLocalStorageData

/-- `setData(data)`: serialize and store; on a throw the blob is
untouched, a `QuotaExceededError` additionally raises the user-visible
toast, and the error propagates. -/
def setData (writeFailure : Option JsErrorName) (env : LocalStorageEnv)
    (d : LocalStorageData) : LocalStorageEnv × Option JsErrorName :=
  match writeFailure with
  | none => ({ env with blob := some d }, none)
  | some e =>
    ({ env with toastErrors := env.toastErrors +
        (if e = .quotaExceededError then 1 else 0) }, some e)

/-- `LocalStorageAdapter.saveImage`: insert under the generated id and
attempt the write; on a throw, roll back the in-memory insertion
(`delete data.images[id]` — the persisted blob was never replaced) and
rethrow. -/
def LocalStorageAdapter.saveImage (writeFailure : Option JsErrorName)
    (env : LocalStorageEnv) (image : ImageInput) (id : String)
    (createdAt : Int) : LocalStorageEnv × Except JsErrorName String :=
  let data := getData env
  let newImage := image.withId id createdAt
  let data1 := { data with images := aset data.images id newImage }
  match setData writeFailure env data1 with
  | (env1, none) => (env1, .ok id)
  | (env1, some e) => (env1, .error e)

/-- `LocalStorageAdapter.getImages()`. -/
def LocalStorageAdapter.getImages (env : LocalStorageEnv) :
    List CanvasImage :=
  (getData env).images.map Prod.snd

/-- `LocalStorageAdapter.deleteNote`: unconditional `delete` then
write — no warning, no error on a missing id. -/
def LocalStorageAdapter.deleteNote (writeFailure : Option JsErrorName)
    (env : LocalStorageEnv) (id : String) :
    LocalStorageEnv × Except JsErrorName Unit :=
  let data := getData env
  let data1 := { data with notes := adel data.notes id }
  match setData writeFailure env data1 with
  | (env1, none) => (env1, .ok ())
  | (env1, some e) => (env1, .error e)

/-- `LocalStorageAdapter.getNotes()`. -/
def LocalStorageAdapter.getNotes (env : LocalStorageEnv) : List Note :=
  (getData env).notes.map Prod.snd

/-- A `Partial<Note>`. -/
structure NotePatch where
  x : Option Int := none
  y : Option Int := none
  width : Option Int := none
  height : Option Int := none
  content : Option String := none
  color : Option String := none
  zIndex : Option Int := none
  isImportant : Option Bool := none
  createdAt : Option Int := none
  updatedAt : Option Int := none
deriving Repr, DecidableEq

/-- `{ ...note, ...updates }`. -/
def NotePatch.mergeInto (p : NotePatch) (n : Note) : Note :=
  { id := n.id
    x := p.x.getD n.x
    y := p.y.getD n.y
    width := p.width.getD n.width
    height := p.height.getD n.height
    content := p.content.getD n.content
    color := p.color.getD n.color
    zIndex := (p.zIndex.map some).getD n.zIndex
    isImportant := (p.isImportant.map some).getD n.isImportant
    createdAt := p.createdAt.getD n.createdAt
    updatedAt := p.updatedAt.getD n.updatedAt }

/-- `LocalStorageAdapter.updateNote`: a missing id is a no-op with a
`console.warn` (this is the operation that makes the warning channel
observable — delete has no such warning). -/
def LocalStorageAdapter.updateNote (writeFailure : Option JsErrorName)
    (env : LocalStorageEnv) (id : String) (updates : NotePatch) :
    LocalStorageEnv × Except JsErrorName Unit :=
  let data := getData env
  match aget data.notes id with
  | none =>
    ({ env with consoleWarnings := env.consoleWarnings + 1 }, .ok ())
  | some n =>
    let data1 :=
      { data with notes := aset data.notes id (updates.mergeInto n) }
    match setData writeFailure env data1 with
    | (env1, none) => (env1, .ok ())
    | (env1, some e) => (env1, .error e)

/-- Environment holding one note under id `"a"`, for the delete
scenarios. -/
def c9Env : LocalStorageEnv :=
  { blob := some { emptyLocalStorageData with notes := [("a", c7NoteA)] },
    toastErrors := 0, consoleWarnings := 0 }

/-- Environment holding nothing, for the quota scenario. -/
def c8Env : LocalStorageEnv :=
  { blob := none, toastErrors := 0, consoleWarnings := 0 }

/-- Image input for the quota scenario. -/
def c8Image : ImageInput :=
  { x := 0, y := 0, width := 100, height := 100, url := "data:img",
    originalWidth := 200, originalHeight := 200, fileName := "pic.png",
    fileSize := 12345 }

/-! ## Remote adapter (`FirebaseStorageAdapter`) -/

/-- `Omit<Note, 'id'>`, the input of `saveNote`. -/
structure NoteInput where
  x : Int
  y : Int
  width : Int
  height : Int
  content : String
  color : String
  zIndex : Option Int
  isImportant : Option Bool
  createdAt : Int
  updatedAt : Int
deriving Repr, DecidableEq

/-- `{ ...note, id }`. -/
def NoteInput.withId (n : NoteInput) (id : String) : Note :=
  { id := id, x := n.x, y := n.y, width := n.width, height := n.height,
    content := n.content, color := n.color, zIndex := n.zIndex,
    isImportant := n.isImportant, createdAt := n.createdAt,
    updatedAt := n.updatedAt }

/-- The remote adapter's internal id→entity cache. -/
structure FirebaseAdapterCache where
  notes : List (String × Note)
  images : List (String × CanvasImage)
  files : List (String × CanvasFile)
deriving Repr, DecidableEq

/-- JS truthiness of the acknowledged id (`if (id)`): `null`/`undefined`
and the empty string are falsy. -/
def truthyId : Option String → Bool
  | some s => !(s == "")
  | none => false

/-- `FirebaseStorageAdapter.saveNote`: push the converted note to the
remote store; `saveAck` is the settlement of `saveNoteToFirebase`
(`.error` a rejection, `.ok ack` a resolution, with `ack = none`
modelling a `null`/`undefined` id).  Only a truthy id enters the cache;
the function resolves with `id || ''`. -/
def FirebaseStorageAdapter.saveNote
    (saveAck : Except JsErrorName (Option String))
    (cache : FirebaseAdapterCache) (note : NoteInput) :
    FirebaseAdapterCache × Except JsErrorName String :=
  match saveAck with
  | .error e => (cache, .error e)
  | .ok ack =>
    if truthyId ack then
      let id := ack.getD ""
      ({ cache with notes := aset cache.notes id (note.withId id) },
        .ok id)
    else (cache, .ok "")

/-! ### Adapter claim theorems -/

/-- C8: if `localStorage.setItem` throws `QuotaExceededError` while
`saveImage` writes the augmented blob, the persisted blob is unchanged
(so the just-added image — its generated id being fresh — is absent from
every subsequent `getImages()`), the user-visible warning is raised
exactly once, no `console.warn` fires, and the error is rethrown. -/
theorem saveImage_quota_rolls_back (env : LocalStorageEnv)
    (image : ImageInput) (id : String) (createdAt : Int)
    (hfresh : ∀ img ∈ LocalStorageAdapter.getImages env, img.id ≠ id) :
    (LocalStorageAdapter.saveImage (some .quotaExceededError) env image
      id createdAt).2 = .error .quotaExceededError ∧
    (LocalStorageAdapter.saveImage (some .quotaExceededError) env image
      id createdAt).1.blob = env.blob ∧
    LocalStorageAdapter.getImages
      (LocalStorageAdapter.saveImage (some .quotaExceededError) env image
        id createdAt).1 = LocalStorageAdapter.getImages env ∧
    image.withId id createdAt ∉ LocalStorageAdapter.getImages
      (LocalStorageAdapter.saveImage (some .quotaExceededError) env image
        id createdAt).1 ∧
    (LocalStorageAdapter.saveImage (some .quotaExceededError) env image
      id createdAt).1.toastErrors = env.toastErrors + 1 ∧
    (LocalStorageAdapter.saveImage (some .quotaExceededError) env image
      id createdAt).1.consoleWarnings = env.consoleWarnings := by
  refine ⟨rfl, rfl, rfl, ?_, rfl, rfl⟩
  intro hmem
  exact hfresh _ hmem rfl

/-- Concrete instance of C8: saving into an empty store under quota
pressure leaves `getImages()` empty and raises one toast. -/
theorem saveImage_quota_rolls_back_witness :
    (LocalStorageAdapter.saveImage (some .quotaExceededError) c8Env
      c8Image "image-1-x" 0).2 = .error .quotaExceededError ∧
    LocalStorageAdapter.getImages
      (LocalStorageAdapter.saveImage (some .quotaExceededError) c8Env
        c8Image "image-1-x" 0).1 = [] ∧
    (LocalStorageAdapter.saveImage (some .quotaExceededError) c8Env
      c8Image "image-1-x" 0).1.toastErrors = 1 := by
  have h := saveImage_quota_rolls_back c8Env c8Image "image-1-x" 0
    (by intro img hmem; cases hmem)
  exact ⟨h.1, h.2.2.1.trans rfl, h.2.2.2.2.1.trans rfl⟩

/-- The first and second `deleteNote` call for the same id (no storage
failure). -/
def deleteNoteOnce (env : LocalStorageEnv) (id : String) :
    LocalStorageEnv × Except JsErrorName Unit :=
  LocalStorageAdapter.deleteNote none env id

def deleteNoteTwice (env : LocalStorageEnv) (id : String) :
    LocalStorageEnv × Except JsErrorName Unit :=
  LocalStorageAdapter.deleteNote none (deleteNoteOnce env id).1 id

/-- Counterexample to C9 as stated: deleting note `"a"` twice from
`c9Env` produces the same final persisted state as deleting it once and
the second call succeeds — but the code logs NO warning on the second
call (the claimed warning does not exist: `deleteNote` deletes
unconditionally and silently). -/
theorem deleteNote_second_call_warns_counterexample :
    (deleteNoteTwice c9Env "a").1 = (deleteNoteOnce c9Env "a").1 ∧
    (deleteNoteTwice c9Env "a").2 = .ok () ∧
    ¬ ((deleteNoteTwice c9Env "a").1.consoleWarnings =
      (deleteNoteOnce c9Env "a").1.consoleWarnings + 1) := by
  refine ⟨by decide, by rfl, by decide⟩

/-- C9 (amended): deleting the same id twice produces the same final
persisted state as deleting it once; the second call raises neither an
error nor a warning (as does any delete of a non-existent id, which
succeeds silently). -/
theorem deleteNote_idempotent_and_silent (env : LocalStorageEnv)
    (id : String) :
    (deleteNoteTwice env id).1 = (deleteNoteOnce env id).1 ∧
    (deleteNoteTwice env id).2 = .ok () ∧
    (deleteNoteOnce env id).2 = .ok () ∧
    (deleteNoteTwice env id).1.consoleWarnings = env.consoleWarnings ∧
    (deleteNoteTwice env id).1.toastErrors = env.toastErrors := by
  have hdel2 : adel (adel
      (env.blob.getD emptyLocalStorageData).notes id) id =
      adel (env.blob.getD emptyLocalStorageData).notes id := by
    apply adel_of_ahas_false
    unfold ahas
    rw [aget_adel_self]
    rfl
  unfold deleteNoteTwice deleteNoteOnce LocalStorageAdapter.deleteNote
    setData getData
  simp [hdel2]

/-- Concrete instance of C9's amended statement. -/
theorem deleteNote_idempotent_and_silent_witness :
    (deleteNoteTwice c9Env "a").1 = (deleteNoteOnce c9Env "a").1 ∧
    (deleteNoteTwice c9Env "a").1.consoleWarnings = 0 := by
  have h := deleteNote_idempotent_and_silent c9Env "a"
  exact ⟨h.1, h.2.2.2.1.trans rfl⟩

/-- C10: when the remote save acknowledgement yields a `null`/`undefined`
id, `saveNote` resolves successfully with `''`, inserts nothing into the
internal cache, and it never rejects on a falsy id — the empty-string id
behaves identically. -/
theorem saveNote_falsy_ack_resolves_empty
    (cache : FirebaseAdapterCache) (note : NoteInput) :
    FirebaseStorageAdapter.saveNote (.ok none) cache note =
      (cache, .ok "") ∧
    FirebaseStorageAdapter.saveNote (.ok (some "")) cache note =
      (cache, .ok "") := by
  constructor <;> rfl

end Interectnote
